import Mathlib

/-!
Verification development for the OmmSai batch-extraction engine.

Shallow embedding of:
* `getGoogleFiles/utils/rate_limiter.py`   (RateLimiter, ExponentialBackoff)
* `getGoogleFiles/utils/checkpoint_manager.py` (CheckpointManager)
* `getGoogleFiles/utils/progress_tracker.py`   (ProgressTracker)
* `getGoogleFiles/core/parallel_processor.py`  (ParallelProcessor worker loop)
* `getGoogleFiles/config/settings.py`          (worker-count settings)

Time and delays are modelled as rationals, machine state as explicit records,
exceptions as `Except String`.  Loops are modelled by structural recursion on
an explicit iteration count so that all definitions compute by `decide`/`rfl`.
-/

namespace OmmSai

/-! ## Exponential backoff (rate_limiter.py, class ExponentialBackoff) -/

/-- Lower-case the characters of a string, modelling Python `str.lower()`. -/
def lowerChars (s : String) : List Char := s.toList.map Char.toLower

/-- Does `needle` occur as a contiguous block at some position of `hay`?
Models Python `needle in hay`. -/
def occursIn (needle : List Char) : List Char → Bool
  | [] => needle.isEmpty
  | c :: rest => needle.isPrefixOf (c :: rest) || occursIn needle rest

/-- The throttling-error test of `execute_with_retry`:
`'rate limit' in error_str or '429' in error_str or 'too many requests' in error_str`
on the lower-cased message. -/
def isRateLimitMsg (msg : String) : Bool :=
  let s := lowerChars msg
  occursIn "rate limit".toList s || occursIn "429".toList s ||
    occursIn "too many requests".toList s

/-- State of `ExponentialBackoff.__init__`: `base_delay`, `max_delay`, `max_attempts`. -/
structure ExponentialBackoff where
  base_delay : ℚ
  max_delay : ℚ
  max_attempts : ℕ
deriving DecidableEq

/-- Model of `ExponentialBackoff.get_delay`: `None` once `attempt >= max_attempts`,
otherwise `min(base_delay * 2 ** attempt, max_delay)`. -/
def get_delay (b : ExponentialBackoff) (attempt : ℕ) : Option ℚ :=
  if b.max_attempts ≤ attempt then none
  else some (min (b.base_delay * 2 ^ attempt) b.max_delay)

/-- Observable trace of one `execute_with_retry` run: the outcome,
the sequence of `time.sleep` delays performed, and how many times the
wrapped operation was invoked. -/
structure RetryTrace (α : Type) where
  result : Except String α
  sleeps : List ℚ
  calls : ℕ

/-- The `for attempt in range(max_attempts)` loop of `execute_with_retry`.
`fuel` is the number of loop iterations left (`max_attempts - attempt`),
`attempt` the current 0-indexed attempt, `lastExc` the `last_exception`
variable.  The operation is modelled per-invocation: `op i` is what the
`i`-th call returns or raises. -/
def retry_loop (b : ExponentialBackoff) (op : ℕ → Except String α) :
    (attempt fuel : ℕ) → (lastExc : String) → RetryTrace α
  | _, 0, lastExc => ⟨.error lastExc, [], 0⟩
  | attempt, fuel + 1, _ =>
    match op attempt with
    | .ok a => ⟨.ok a, [], 1⟩
    | .error e =>
      match get_delay b attempt with
      | none => ⟨.error e, [], 1⟩
      | some d =>
        let d2 := if isRateLimitMsg e then min (d * 2) b.max_delay else d
        let r := retry_loop b op (attempt + 1) fuel e
        ⟨r.result, d2 :: r.sleeps, r.calls + 1⟩

/-- Model of `ExponentialBackoff.execute_with_retry`: run the loop from attempt 0 for
`max_attempts` iterations; the final `raise last_exception` is the `.error`
outcome. -/
def execute_with_retry (b : ExponentialBackoff) (op : ℕ → Except String α) : RetryTrace α :=
  retry_loop b op 0 b.max_attempts ""

/-- The delay actually slept after failed attempt `i`:
`get_delay` capped value, doubled and re-capped for throttling messages. -/
def expectedSleep (b : ExponentialBackoff) (m : ℕ → String) (i : ℕ) : ℚ :=
  let d := min (b.base_delay * 2 ^ i) b.max_delay
  if isRateLimitMsg (m i) then min (d * 2) b.max_delay else d

theorem retry_loop_allFail (b : ExponentialBackoff) (op : ℕ → Except String α)
    (m : ℕ → String) (hop : ∀ i, op i = .error (m i)) :
    ∀ (fuel attempt : ℕ) (lastExc : String),
      attempt + fuel ≤ b.max_attempts → 1 ≤ fuel →
      retry_loop b op attempt fuel lastExc =
        ⟨.error (m (attempt + fuel - 1)),
         (List.range fuel).map (fun j => expectedSleep b m (attempt + j)),
         fuel⟩ := by
  intro fuel
  induction fuel with
  | zero => intro attempt lastExc _ h1; omega
  | succ n ih =>
    intro attempt lastExc hle _
    have hlt : attempt < b.max_attempts := by omega
    have hdelay : get_delay b attempt =
        some (min (b.base_delay * 2 ^ attempt) b.max_delay) := by
      simp [get_delay, Nat.not_le.mpr hlt]
    rcases Nat.eq_zero_or_pos n with hn | hn
    · subst hn
      simp only [retry_loop, hop attempt, hdelay]
      simp [retry_loop, expectedSleep, List.range_succ]
    · have hrec := ih (attempt + 1) (m attempt) (by omega) (by omega)
      simp only [retry_loop, hop attempt, hdelay, hrec]
      simp only [RetryTrace.mk.injEq]
      refine ⟨congrArg (fun k => Except.error (α := α) (m k)) (by omega), ?_, trivial⟩
      rw [List.range_succ_eq_map, List.map_cons, List.map_map]
      refine congrArg₂ _ ?_ ?_
      · simp [expectedSleep]
      · refine List.map_congr_left fun j _ => ?_
        simp only [Function.comp_apply]
        exact congrArg (expectedSleep b m) (by omega)

theorem retry_loop_sleeps_get (b : ExponentialBackoff) (op : ℕ → Except String α)
    (m : ℕ → String) :
    ∀ (j attempt fuel : ℕ) (lastExc : String),
      attempt + fuel ≤ b.max_attempts → j < fuel →
      (∀ i, attempt ≤ i → i ≤ attempt + j → op i = .error (m i)) →
      (retry_loop b op attempt fuel lastExc).sleeps[j]? =
        some (expectedSleep b m (attempt + j)) := by
  intro j
  induction j with
  | zero =>
    intro attempt fuel lastExc hle hj hop
    obtain ⟨f, rfl⟩ : ∃ f, fuel = f + 1 := ⟨fuel - 1, by omega⟩
    have hlt : attempt < b.max_attempts := by omega
    have hdelay : get_delay b attempt =
        some (min (b.base_delay * 2 ^ attempt) b.max_delay) := by
      simp [get_delay, Nat.not_le.mpr hlt]
    simp only [retry_loop, hop attempt (le_refl _) (by omega), hdelay]
    simp [expectedSleep]
  | succ n ih =>
    intro attempt fuel lastExc hle hj hop
    obtain ⟨f, rfl⟩ : ∃ f, fuel = f + 1 := ⟨fuel - 1, by omega⟩
    have hlt : attempt < b.max_attempts := by omega
    have hdelay : get_delay b attempt =
        some (min (b.base_delay * 2 ^ attempt) b.max_delay) := by
      simp [get_delay, Nat.not_le.mpr hlt]
    simp only [retry_loop, hop attempt (le_refl _) (by omega), hdelay]
    have hrec := ih (attempt + 1) f (m attempt) (by omega) (by omega)
      (fun i hi1 hi2 => hop i (by omega) (by omega))
    simp only [List.getElem?_cons_succ]
    rw [hrec]
    exact congrArg (fun k => some (expectedSleep b m k)) (by omega)

/-- C3: for every maxAttempts ≥ 1 and an operation that raises on every
invocation, `execute_with_retry` calls the operation exactly `max_attempts`
times and re-raises the error of the final invocation. -/
theorem retry_allFail_calls_and_reraise (b : ExponentialBackoff)
    (op : ℕ → Except String α) (m : ℕ → String)
    (h1 : 1 ≤ b.max_attempts) (hop : ∀ i, op i = .error (m i)) :
    (execute_with_retry b op).calls = b.max_attempts ∧
    (execute_with_retry b op).result = .error (m (b.max_attempts - 1)) := by
  have h := retry_loop_allFail b op m hop b.max_attempts 0 "" (by omega) h1
  rw [execute_with_retry, h]
  refine ⟨rfl, ?_⟩
  simp

theorem retry_allFail_calls_and_reraise_witness :
    (execute_with_retry ⟨1, 60, 3⟩
        (fun _ => (Except.error "boom" : Except String ℕ))).calls = 3 ∧
    (execute_with_retry ⟨1, 60, 3⟩
        (fun _ => (Except.error "boom" : Except String ℕ))).result =
      Except.error "boom" :=
  retry_allFail_calls_and_reraise ⟨1, 60, 3⟩ _ (fun _ => "boom")
    (by decide) (fun _ => rfl)

/-- C4: the sleep performed before attempt k (0-indexed, k ≥ 1) equals
min(baseDelay * 2^(k-1), maxDelay) when the error raised by attempt k-1 is
not a throttling error, and is doubled and re-capped at maxDelay when that
error's message contains (case-insensitively) "rate limit", "429" or
"too many requests". -/
theorem retry_sleep_before_attempt (b : ExponentialBackoff)
    (op : ℕ → Except String α) (m : ℕ → String) (k : ℕ)
    (h1 : 1 ≤ k) (hk : k - 1 < b.max_attempts)
    (hop : ∀ i, i < k → op i = .error (m i)) :
    (execute_with_retry b op).sleeps[k - 1]? =
      some (if isRateLimitMsg (m (k - 1))
            then min (min (b.base_delay * 2 ^ (k - 1)) b.max_delay * 2) b.max_delay
            else min (b.base_delay * 2 ^ (k - 1)) b.max_delay) := by
  have h := retry_loop_sleeps_get b op m (k - 1) 0 b.max_attempts "" (by omega) hk
    (fun i hi1 hi2 => hop i (by omega))
  rw [execute_with_retry, h]
  simp [expectedSleep]

theorem retry_sleep_before_attempt_witness :
    (execute_with_retry ⟨1, 60, 3⟩
        (fun _ => (Except.error "boom" : Except String ℕ))).sleeps[1]? =
      some (if isRateLimitMsg "boom"
            then min (min ((1 : ℚ) * 2 ^ 1) 60 * 2) 60
            else min ((1 : ℚ) * 2 ^ 1) 60) := by
  have h := retry_sleep_before_attempt ⟨1, 60, 3⟩
    (fun _ => (Except.error "boom" : Except String ℕ)) (fun _ => "boom") 2
    (by decide) (by decide) (fun i _ => rfl)
  simpa using h

/-- C10 counterexample: with maxAttempts = 1, baseDelay = 1, maxDelay = 60 and
an operation that always raises "429", the single (final) backoff sleep is 2
seconds, while the claim's stated value min(baseDelay * 2^(maxAttempts-1),
maxDelay) is 1: the throttling match doubles the final sleep. -/
theorem retry_final_sleep_as_claimed_false :
    (execute_with_retry ⟨1, 60, 1⟩
        (fun _ => (Except.error "429" : Except String ℕ))).sleeps = [2] ∧
    min ((1 : ℚ) * 2 ^ ((1 : ℕ) - 1)) 60 = 1 ∧ ((2 : ℚ) ≠ 1) := by
  have h429 : isRateLimitMsg "429" = true := by decide
  refine ⟨?_, by norm_num, by norm_num⟩
  simp [execute_with_retry, retry_loop, get_delay, h429, min_def]
  norm_num

/-- C10 (amended): for an operation that raises on every invocation,
`execute_with_retry` performs exactly `max_attempts` backoff sleeps —
including one after the final failed attempt whose value is
min(baseDelay * 2^(maxAttempts-1), maxDelay) when the final error is not a
throttling error, and that value doubled and re-capped at maxDelay when it
is — before the last error is re-raised, because `get_delay` returns a
non-none delay for every attempt index in 0..maxAttempts-1, making the
early-break branch unreachable. -/
theorem retry_allFail_sleep_count_and_final (b : ExponentialBackoff)
    (op : ℕ → Except String α) (m : ℕ → String)
    (h1 : 1 ≤ b.max_attempts) (hop : ∀ i, op i = .error (m i)) :
    (execute_with_retry b op).sleeps.length = b.max_attempts ∧
    (execute_with_retry b op).sleeps[b.max_attempts - 1]? =
      some (if isRateLimitMsg (m (b.max_attempts - 1))
            then min (min (b.base_delay * 2 ^ (b.max_attempts - 1)) b.max_delay * 2) b.max_delay
            else min (b.base_delay * 2 ^ (b.max_attempts - 1)) b.max_delay) ∧
    (∀ i, i < b.max_attempts →
      get_delay b i = some (min (b.base_delay * 2 ^ i) b.max_delay)) := by
  refine ⟨?_, ?_, ?_⟩
  · have h := retry_loop_allFail b op m hop b.max_attempts 0 "" (by omega) h1
    rw [execute_with_retry, h]
    simp
  · have h := retry_loop_sleeps_get b op m (b.max_attempts - 1) 0 b.max_attempts ""
      (by omega) (by omega) (fun i hi1 hi2 => hop i)
    rw [execute_with_retry, h]
    simp [expectedSleep]
  · intro i hi
    simp [get_delay, Nat.not_le.mpr hi]

theorem retry_allFail_sleep_count_and_final_witness :
    (execute_with_retry ⟨1, 60, 2⟩
        (fun _ => (Except.error "429" : Except String ℕ))).sleeps.length = 2 ∧
    (execute_with_retry ⟨1, 60, 2⟩
        (fun _ => (Except.error "429" : Except String ℕ))).sleeps[1]? =
      some (if isRateLimitMsg "429"
            then min (min ((1 : ℚ) * 2 ^ 1) 60 * 2) 60
            else min ((1 : ℚ) * 2 ^ 1) 60) ∧
    (∀ i, i < 2 → get_delay ⟨1, 60, 2⟩ i = some (min ((1 : ℚ) * 2 ^ i) 60)) := by
  have h := retry_allFail_sleep_count_and_final ⟨1, 60, 2⟩
    (fun _ => (Except.error "429" : Except String ℕ)) (fun _ => "429")
    (by decide) (fun _ => rfl)
  simpa using h

/-! ## Sliding-window rate limiter (rate_limiter.py, class RateLimiter)

Time is modelled as ℚ.  `acquire` takes the wall-clock instant `now` at which
the call starts, sleeps are idealized as exact (after `time.sleep(x)` the
clock reads exactly the target instant), and the returned instant is the
admission timestamp appended to `requests`. -/

structure RateLimiter where
  max_requests : ℕ
  window : ℚ
  requests : List ℚ
  backoff_until : Option ℚ

/-- Fresh limiter, as built by `RateLimiter.__init__(max_requests_per_minute)`. -/
def mkRateLimiter (max_requests : ℕ) (window : ℚ) : RateLimiter :=
  ⟨max_requests, window, [], none⟩

/-- Model of `RateLimiter.acquire`: honour any backoff period, drop timestamps outside
the trailing window, wait for the oldest timestamp to exit the window when the
window is full, then record the admission.  Returns the new state and the
admission timestamp. -/
def RateLimiter.acquire (r : RateLimiter) (now : ℚ) : RateLimiter × ℚ :=
  let now1 := match r.backoff_until with
    | some b => if now < b then b else now
    | none => now
  let reqs1 := r.requests.filter (fun t => decide (now1 - r.window < t))
  if r.max_requests ≤ reqs1.length then
    match reqs1.min? with
    | some oldest =>
      if now1 < oldest + r.window then
        let now2 := oldest + r.window
        let reqs2 := reqs1.filter (fun t => decide (now2 - r.window < t))
        ({ r with requests := reqs2 ++ [now2] }, now2)
      else
        ({ r with requests := reqs1 ++ [now1] }, now1)
    | none => ({ r with requests := reqs1 ++ [now1] }, now1)
  else
    ({ r with requests := reqs1 ++ [now1] }, now1)

/-- Model of `RateLimiter.set_backoff`. -/
def RateLimiter.set_backoff (r : RateLimiter) (now seconds : ℚ) : RateLimiter :=
  { r with backoff_until := some (now + seconds) }

/-- Model of `RateLimiter.clear_backoff`. -/
def RateLimiter.clear_backoff (r : RateLimiter) : RateLimiter :=
  { r with backoff_until := none }

/-- Run a sequence of `acquire` calls; returns the final limiter state and the
chronological list of admission timestamps. -/
def runAcquires (r : RateLimiter) : List ℚ → RateLimiter × List ℚ
  | [] => (r, [])
  | c :: cs =>
    let p := r.acquire c
    let q := runAcquires p.1 cs
    (q.1, p.2 :: q.2)

/-- Validity of a call sequence: each `acquire` starts no earlier than the
instant at which the previous `acquire` returned (time moves forward between
calls). -/
def CallsOk (r : RateLimiter) (lastAdmission : Option ℚ) : List ℚ → Prop
  | [] => True
  | c :: cs =>
    (∀ a ∈ lastAdmission, a ≤ c) ∧ CallsOk (r.acquire c).1 (some (r.acquire c).2) cs

/-- Number of admissions falling in the trailing half-open window `(t-w, t]`. -/
def windowCount (w : ℚ) (A : List ℚ) (t : ℚ) : ℕ :=
  (A.filter (fun a => decide (t - w < a ∧ a ≤ t))).length

/-- The run invariant tying the limiter state to the full admission history
`A`: the in-memory list is exactly the admissions still inside the trailing
window of the most recent admission, it never exceeds `max_requests`, the
history is bounded by its last element, and every trailing window of the
history holds at most `max_requests` admissions. -/
structure RLInv (k : ℕ) (w : ℚ) (r : RateLimiter) (A : List ℚ) : Prop where
  maxr : r.max_requests = k
  wnd : r.window = w
  backoff : r.backoff_until = none
  lenBound : r.requests.length ≤ k
  reqNil : A = [] → r.requests = []
  reqEq : ∀ last ∈ A.getLast?, r.requests = A.filter (fun a => decide (last - w < a))
  leLast : ∀ last ∈ A.getLast?, ∀ a ∈ A, a ≤ last
  cnt : ∀ t, windowCount w A t ≤ k

theorem filter_lt_absorb (c1 c2 : ℚ) (h : c1 ≤ c2) (l : List ℚ) :
    (l.filter (fun a => decide (c1 < a))).filter (fun a => decide (c2 < a)) =
      l.filter (fun a => decide (c2 < a)) := by
  induction l with
  | nil => rfl
  | cons x xs ih =>
    by_cases h2 : c2 < x
    · have h1 : c1 < x := lt_of_le_of_lt h h2
      simp [List.filter_cons, h1, h2, ih]
    · by_cases h1 : c1 < x
      · simp [List.filter_cons, h1, h2, ih]
      · simp [List.filter_cons, h1, h2, ih]

theorem length_filter_cutoff_mono (c1 c2 : ℚ) (h : c1 ≤ c2) (l : List ℚ) :
    (l.filter (fun a => decide (c2 < a))).length ≤
      (l.filter (fun a => decide (c1 < a))).length := by
  rw [← filter_lt_absorb c1 c2 h l]
  exact List.length_filter_le _ _

theorem windowCount_append (w : ℚ) (A : List ℚ) (b t : ℚ) :
    windowCount w (A ++ [b]) t =
      windowCount w A t + (if t - w < b ∧ b ≤ t then 1 else 0) := by
  unfold windowCount
  rw [List.filter_append, List.length_append]
  congr 1
  by_cases hb : t - w < b ∧ b ≤ t <;> simp [hb]

theorem windowCount_of_le (w : ℚ) (A : List ℚ) (t : ℚ) (h : ∀ a ∈ A, a ≤ t) :
    windowCount w A t = (A.filter (fun a => decide (t - w < a))).length := by
  unfold windowCount
  congr 1
  refine List.filter_congr fun a ha => ?_
  simp [h a ha]

theorem acquire_step (k : ℕ) (w : ℚ) (hk : 1 ≤ k) (hw : 0 < w)
    (r : RateLimiter) (A : List ℚ) (inv : RLInv k w r A) (c : ℚ)
    (hc : ∀ last ∈ A.getLast?, last ≤ c) :
    RLInv k w (r.acquire c).1 (A ++ [(r.acquire c).2]) := by
  have hAle : ∀ a ∈ A, a ≤ c := by
    cases hA : A.getLast? with
    | none =>
      rw [List.getLast?_eq_none_iff] at hA
      intro a ha
      rw [hA] at ha
      simp at ha
    | some last =>
      intro a ha
      exact le_trans (inv.leLast last hA a ha) (hc last hA)
  have hreqs : r.requests.filter (fun u => decide (c - w < u)) =
      A.filter (fun u => decide (c - w < u)) := by
    cases hA : A.getLast? with
    | none =>
      rw [List.getLast?_eq_none_iff] at hA
      rw [inv.reqNil hA, hA]
    | some last =>
      rw [inv.reqEq last hA]
      exact filter_lt_absorb (last - w) (c - w) (by have := hc last hA; linarith) A
  have hlen1 : (A.filter (fun u => decide (c - w < u))).length ≤ k := by
    rw [← hreqs]
    exact le_trans (List.length_filter_le _ _) inv.lenBound
  simp only [RateLimiter.acquire, inv.backoff, inv.wnd, inv.maxr]
  rw [hreqs]
  by_cases hfull : k ≤ (A.filter (fun u => decide (c - w < u))).length
  · rw [if_pos hfull]
    have hne : A.filter (fun u => decide (c - w < u)) ≠ [] := by
      intro h0
      rw [h0] at hfull
      simp at hfull
      omega
    obtain ⟨oldest, hmin⟩ :
        ∃ o, (A.filter (fun u => decide (c - w < u))).min? = some o := by
      cases hm : (A.filter (fun u => decide (c - w < u))).min? with
      | none => exact absurd (List.min?_eq_none_iff.mp hm) hne
      | some o => exact ⟨o, rfl⟩
    simp only [hmin]
    have hmem : oldest ∈ A.filter (fun u => decide (c - w < u)) :=
      List.min?_mem (fun x y => min_choice x y) hmin
    have hco : c - w < oldest := by
      have := List.mem_filter.mp hmem
      exact of_decide_eq_true this.2
    have hwait : c < oldest + w := by linarith
    rw [if_pos hwait]
    have hpred : (fun u => decide (oldest + w - w < u)) = (fun u => decide (oldest < u)) := by
      funext u
      rw [add_sub_cancel_right]
    rw [hpred]
    have hreqs2 : (A.filter (fun u => decide (c - w < u))).filter
        (fun u => decide (oldest < u)) =
        A.filter (fun u => decide (oldest < u)) :=
      filter_lt_absorb (c - w) oldest (le_of_lt hco) A
    have hlen2 : (A.filter (fun u => decide (oldest < u))).length + 1 ≤ k := by
      have hdrop : ((A.filter (fun u => decide (c - w < u))).filter
          (fun u => decide (oldest < u))).length <
          (A.filter (fun u => decide (c - w < u))).length :=
        List.length_filter_lt_length_iff_exists.mpr
          ⟨oldest, hmem, by simp⟩
      rw [hreqs2] at hdrop
      omega
    dsimp only
    refine ⟨rfl, rfl, rfl, ?_, ?_, ?_, ?_, ?_⟩
    · simp only [List.length_append, List.length_cons, List.length_nil, hreqs2]
      omega
    · intro h0
      exact absurd h0 (by simp)
    · intro last hlast
      rw [List.getLast?_concat] at hlast
      simp only [Option.mem_def, Option.some.injEq] at hlast
      subst hlast
      rw [List.filter_append, hreqs2, hpred]
      have hsingle : [oldest + w].filter (fun u => decide (oldest < u)) =
          [oldest + w] := by
        simp only [List.filter_cons, List.filter_nil]
        have : oldest < oldest + w := by linarith
        simp [this]
      rw [hsingle]
    · intro last hlast a ha
      rw [List.getLast?_concat] at hlast
      simp only [Option.mem_def, Option.some.injEq] at hlast
      subst hlast
      rcases List.mem_append.mp ha with haA | hax
      · exact le_trans (hAle a haA) (le_of_lt hwait)
      · simp at hax
        exact le_of_eq hax
    · intro t
      rw [windowCount_append]
      by_cases hin : t - w < oldest + w ∧ oldest + w ≤ t
      · rw [if_pos hin]
        have h1 : windowCount w A t =
            (A.filter (fun u => decide (t - w < u))).length :=
          windowCount_of_le w A t
            (fun a ha => le_trans (hAle a ha) (le_trans (le_of_lt hwait) hin.2))
        have h2 : (A.filter (fun u => decide (t - w < u))).length ≤
            (A.filter (fun u => decide (oldest < u))).length :=
          length_filter_cutoff_mono oldest (t - w) (by linarith [hin.2]) A
        omega
      · rw [if_neg hin]
        have := inv.cnt t
        omega
  · rw [if_neg hfull]
    dsimp only
    refine ⟨rfl, rfl, rfl, ?_, ?_, ?_, ?_, ?_⟩
    · simp only [List.length_append, List.length_cons, List.length_nil]
      omega
    · intro h0
      exact absurd h0 (by simp)
    · intro last hlast
      rw [List.getLast?_concat] at hlast
      simp only [Option.mem_def, Option.some.injEq] at hlast
      subst hlast
      rw [List.filter_append]
      have hsingle : [c].filter (fun u => decide (c - w < u)) = [c] := by
        simp only [List.filter_cons, List.filter_nil]
        have : c - w < c := by linarith
        simp [this]
      rw [hsingle]
    · intro last hlast a ha
      rw [List.getLast?_concat] at hlast
      simp only [Option.mem_def, Option.some.injEq] at hlast
      subst hlast
      rcases List.mem_append.mp ha with haA | hax
      · exact hAle a haA
      · simp at hax
        exact le_of_eq hax
    · intro t
      rw [windowCount_append]
      by_cases hin : t - w < c ∧ c ≤ t
      · rw [if_pos hin]
        have h1 : windowCount w A t =
            (A.filter (fun u => decide (t - w < u))).length :=
          windowCount_of_le w A t (fun a ha => le_trans (hAle a ha) hin.2)
        have h2 : (A.filter (fun u => decide (t - w < u))).length ≤
            (A.filter (fun u => decide (c - w < u))).length :=
          length_filter_cutoff_mono (c - w) (t - w) (by linarith [hin.2]) A
        omega
      · rw [if_neg hin]
        have := inv.cnt t
        omega

theorem runAcquires_inv (k : ℕ) (w : ℚ) (hk : 1 ≤ k) (hw : 0 < w) :
    ∀ (calls : List ℚ) (r : RateLimiter) (A : List ℚ),
      RLInv k w r A → CallsOk r A.getLast? calls →
      RLInv k w (runAcquires r calls).1 (A ++ (runAcquires r calls).2) := by
  intro calls
  induction calls with
  | nil =>
    intro r A inv _
    simpa [runAcquires] using inv
  | cons c cs ih =>
    intro r A inv hok
    obtain ⟨hc, hok2⟩ := hok
    have step := acquire_step k w hk hw r A inv c hc
    have hlast : (A ++ [(r.acquire c).2]).getLast? = some (r.acquire c).2 :=
      List.getLast?_concat A
    have hok3 : CallsOk (r.acquire c).1 (A ++ [(r.acquire c).2]).getLast? cs := by
      rw [hlast]
      exact hok2
    have h2 := ih (r.acquire c).1 (A ++ [(r.acquire c).2]) step hok3
    simpa [runAcquires, List.append_assoc] using h2

/-- Fresh-limiter invariant: empty history, empty request list. -/
theorem RLInv_init (k : ℕ) (w : ℚ) : RLInv k w (mkRateLimiter k w) [] := by
  refine ⟨rfl, rfl, rfl, by simp [mkRateLimiter], fun _ => rfl, ?_, ?_, ?_⟩
  · intro last hlast
    simp at hlast
  · intro last hlast
    simp at hlast
  · intro t
    simp [windowCount]

/-- C5: for every sequence of `acquire` calls on a limiter configured with
`max_requests = k` over a window of `w` seconds (time advancing between
calls), at most k admissions fall within any trailing window of length w;
and when the cleaned-up window already holds `max_requests` timestamps,
`acquire` admits exactly when the oldest timestamp exits the window
(admission instant = oldest + window). -/
theorem rateLimiter_window_bound (k : ℕ) (w : ℚ) (hk : 1 ≤ k) (hw : 0 < w)
    (calls : List ℚ) (hok : CallsOk (mkRateLimiter k w) none calls) :
    (∀ t : ℚ, windowCount w (runAcquires (mkRateLimiter k w) calls).2 t ≤ k) ∧
    (∀ (r : RateLimiter) (now oldest : ℚ), r.backoff_until = none →
      r.max_requests ≤
        (r.requests.filter (fun u => decide (now - r.window < u))).length →
      (r.requests.filter (fun u => decide (now - r.window < u))).min? = some oldest →
      0 < r.window →
      (r.acquire now).2 = oldest + r.window) := by
  constructor
  · have h := runAcquires_inv k w hk hw calls (mkRateLimiter k w) []
      (RLInv_init k w) (by simpa using hok)
    intro t
    have := h.cnt t
    simpa using this
  · intro r now oldest hb hfull hmin hwr
    have hmem : oldest ∈ r.requests.filter (fun u => decide (now - r.window < u)) :=
      List.min?_mem (fun x y => min_choice x y) hmin
    have hco : now - r.window < oldest :=
      of_decide_eq_true (List.mem_filter.mp hmem).2
    have hwait : now < oldest + r.window := by linarith
    simp only [RateLimiter.acquire, hb]
    rw [if_pos hfull]
    simp only [hmin]
    rw [if_pos hwait]

theorem rateLimiter_window_bound_witness :
    CallsOk (mkRateLimiter 1 60) none [0, 10] ∧
    ((∀ t : ℚ, windowCount 60 (runAcquires (mkRateLimiter 1 60) [0, 10]).2 t ≤ 1) ∧
     (∀ (r : RateLimiter) (now oldest : ℚ), r.backoff_until = none →
        r.max_requests ≤
          (r.requests.filter (fun u => decide (now - r.window < u))).length →
        (r.requests.filter (fun u => decide (now - r.window < u))).min? = some oldest →
        0 < r.window →
        (r.acquire now).2 = oldest + r.window)) := by
  have hok : CallsOk (mkRateLimiter 1 60) none [0, 10] := by
    simp only [CallsOk, mkRateLimiter, RateLimiter.acquire]
    norm_num [List.filter]
    intro a ha
    exact absurd ha (by simp)
  exact ⟨hok, rateLimiter_window_bound 1 60 (by norm_num) (by norm_num) [0, 10] hok⟩

/-! ## Checkpoint manager (checkpoint_manager.py, class CheckpointManager) -/

/-- The `stats` dictionary of `CheckpointManager`. -/
structure CkStats where
  total : ℕ
  processed : ℕ
  success : ℕ
  partialCount : ℕ
  failed : ℕ
  started_at : Option String
  last_checkpoint : Option String
deriving DecidableEq

/-- In-memory checkpoint state: the processed-id set, the failed-id → message
dictionary (as an association list, preserving Python dict insertion order),
and the stats block. -/
structure CheckpointData where
  processed_files : Finset String
  failed_files : List (String × String)
  stats : CkStats
deriving DecidableEq

/-- The durable record written by `_save_checkpoint`: `processed_files` is
serialized as a list (`list(self.processed_files)`), the rest verbatim, plus
the flush timestamp. -/
structure CheckpointRecord where
  processed_files : List String
  failed_files : List (String × String)
  stats : CkStats
  last_checkpoint : String
deriving DecidableEq

/-- Model of `CheckpointManager._save_checkpoint`: build the durable record from the
in-memory state (`now` is `datetime.now().isoformat()`). -/
def save_checkpoint (d : CheckpointData) (now : String) : CheckpointRecord :=
  { processed_files := d.processed_files.sort (· ≤ ·)
  , failed_files := d.failed_files
  , stats := d.stats
  , last_checkpoint := now }

/-- Model of `CheckpointManager._load_checkpoint` applied to a durable record:
`set(data.get('processed_files', []))`, `data.get('failed_files', {})`,
`data.get('stats', ...)`. -/
def load_checkpoint (rec : CheckpointRecord) : CheckpointData :=
  { processed_files := rec.processed_files.toFinset
  , failed_files := rec.failed_files
  , stats := rec.stats }

/-- C8: saving the in-memory checkpoint state to the durable record and then
loading that record restores exactly the processed-id set, the
failed-id-to-message map, and the stats block. -/
theorem checkpoint_roundtrip (d : CheckpointData) (now : String) :
    load_checkpoint (save_checkpoint d now) = d := by
  cases d with
  | mk p f st =>
    simp [save_checkpoint, load_checkpoint, Finset.sort_toFinset]

/-- Python dict assignment `d[key] = v`: overwrite an existing binding in
place, else append. -/
def dictInsert (d : List (String × String)) (key v : String) :
    List (String × String) :=
  if d.any (fun p => p.1 == key) then
    d.map (fun p => if p.1 == key then (key, v) else p)
  else d ++ [(key, v)]

/-- Executor-facing checkpoint manager state (periodic durable flushes, which
only touch the file and the flush timestamp, are modelled by
`save_checkpoint` above). -/
structure CheckpointManager where
  batch_size : ℕ
  processed_files : Finset String
  failed_files : List (String × String)
  stats : CkStats
deriving DecidableEq

/-- Model of `CheckpointManager.should_process`: `file_id not in self.processed_files`. -/
def should_process (cm : CheckpointManager) (file_id : String) : Bool :=
  decide (file_id ∉ cm.processed_files)

/-- Model of `CheckpointManager.mark_processed`: add to the processed set, bump
`processed`, and bump exactly one of `success`/`partial`/`failed` according
to the status string. -/
def mark_processed (cm : CheckpointManager) (file_id status : String) :
    CheckpointManager :=
  { cm with
    processed_files := insert file_id cm.processed_files
    stats :=
      let s := cm.stats
      let s1 :=
        if status = "success" then { s with success := s.success + 1 }
        else if status = "partial_success" then
          { s with partialCount := s.partialCount + 1 }
        else { s with failed := s.failed + 1 }
      { s1 with processed := s1.processed + 1 } }

/-- Completion semantics of `CheckpointManager.mark_failed`: the state the
method aims to reach — error message recorded, then `mark_processed` with
status `'failed'`.  The real method never gets there: it calls
`self.mark_processed` while holding the same non-reentrant `threading.Lock`,
so the nested acquisition blocks forever (`mark_failed_locked` below is the
faithful model).  This completion abstraction is used only by the linearized
run model, whose claims quantify over runs that reach normal completion, and
such runs never execute this path. -/
def mark_failed (cm : CheckpointManager) (file_id error_message : String) :
    CheckpointManager :=
  mark_processed
    { cm with failed_files := dictInsert cm.failed_files file_id error_message }
    file_id "failed"

/-! ## Progress tracker (progress_tracker.py, class ProgressTracker)

Only the counter/usage state is modelled; throughput, ETA and cost are
derived read-only quantities not needed by the claims. -/

structure ProgressTracker where
  total_files : ℕ
  processed : ℕ
  success : ℕ
  partialCount : ℕ
  failed : ℕ
  total_input_tokens : ℕ
  total_output_tokens : ℕ
deriving DecidableEq

/-- Model of `ProgressTracker.__init__(total_files)`. -/
def mkProgressTracker (total_files : ℕ) : ProgressTracker :=
  ⟨total_files, 0, 0, 0, 0, 0, 0⟩

/-- Model of `ProgressTracker.update(status, input_tokens, output_tokens)`. -/
def ProgressTracker.update (t : ProgressTracker) (status : String)
    (input_tokens output_tokens : ℕ) : ProgressTracker :=
  let t1 :=
    if status = "success" then { t with success := t.success + 1 }
    else if status = "partial_success" then
      { t with partialCount := t.partialCount + 1 }
    else { t with failed := t.failed + 1 }
  { t1 with
    processed := t1.processed + 1
    total_input_tokens := t1.total_input_tokens + input_tokens
    total_output_tokens := t1.total_output_tokens + output_tokens }

/-- success + partial + failed. -/
def sumThree (t : ProgressTracker) : ℕ := t.success + t.partialCount + t.failed

theorem update_processed (t : ProgressTracker) (st : String) (i o : ℕ) :
    (t.update st i o).processed = t.processed + 1 := by
  unfold ProgressTracker.update
  split_ifs <;> rfl

theorem update_sumThree (t : ProgressTracker) (st : String) (i o : ℕ) :
    sumThree (t.update st i o) = sumThree t + 1 := by
  unfold ProgressTracker.update sumThree
  split_ifs <;> dsimp <;> omega

/-! ## Worker loop (parallel_processor.py, ParallelProcessor)

`_process_single_file` and the completion handling of `process_files`,
modelled with an explicit event trace.  Checkpointing is enabled (the
claims all concern runs with a checkpoint manager).  The per-invocation
behaviour of the collaborators is a parameter: `fetchOp t i` is what the
`i`-th call of `google_service.download_file` for task `t` returns (a file
path, `None`, or an exception), `extractOp t path i` likewise for
`claude_processor.extract_data`. -/

structure Task where
  id : String
  name : String
  mimeType : String
deriving DecidableEq

/-- The dictionary returned by extraction (or built synthetically on error):
`document_id`, optional `read_status`, optional `comment`, and an optional
`usage` attribute carrying (input_tokens, output_tokens). -/
structure ExtractedData where
  document_id : String
  read_status : Option String
  comment : Option String
  usage : Option (ℕ × ℕ)
deriving DecidableEq

inductive Event where
  | fetchCall (id : String)
  | extractCall (id : String)
  | trackerUpdate (status : String)
  | markProcessedEv (id status : String)
  | markFailedEv (id msg : String)
  | progressCallback
  | sinkAppend (document_id : String)
deriving DecidableEq

structure Processor where
  backoff : ExponentialBackoff
  fetchOp : Task → ℕ → Except String (Option String)
  extractOp : Task → String → ℕ → Except String ExtractedData

structure ProcState where
  checkpoint : CheckpointManager
  tracker : ProgressTracker
  events : List Event
  sink : List ExtractedData

/-- The synthetic failed result built in the `except` branch of
`_process_single_file`:
`{"document_id": file_name, "read_status": "failed", "comment": f"Error: {error_msg}", "fields": {}}`. -/
def failResult (t : Task) (msg : String) : ExtractedData :=
  { document_id := t.name
  , read_status := some "failed"
  , comment := some ("Error: " ++ msg)
  , usage := none }

/-- Completion semantics of the `except Exception` branch of
`_process_single_file`: tracker update with 'failed', `mark_failed`,
progress callback, synthetic failed result — the state the branch aims to
reach.  Under the real checkpoint lock the branch hangs inside `mark_failed`
(`failStepLocked` below is the faithful model); this completion abstraction
is used only by the linearized normal-completion run model.  `pre` is the
trace of collaborator calls made before the exception. -/
def failStep (s : ProcState) (t : Task) (msg : String) (pre : List Event) :
    ProcState × Option ExtractedData :=
  ({ checkpoint := mark_failed s.checkpoint t.id msg
   , tracker := s.tracker.update "failed" 0 0
   , events := s.events ++ pre ++
       [.trackerUpdate "failed", .markFailedEv t.id msg, .progressCallback]
   , sink := s.sink }, some (failResult t msg))

/-- Model of `ParallelProcessor._process_single_file`: skip when the checkpoint says
so; otherwise fetch (with retry), treating a falsy path as
`raise Exception("Download failed")`; then extract (with retry); then
tracker update, checkpoint update, progress callback. -/
def process_single_file (P : Processor) (s : ProcState) (t : Task) :
    ProcState × Option ExtractedData :=
  if should_process s.checkpoint t.id then
    match (execute_with_retry P.backoff (P.fetchOp t)).result with
    | .error msg => failStep s t msg [.fetchCall t.id]
    | .ok none => failStep s t "Download failed" [.fetchCall t.id]
    | .ok (some file_path) =>
      match (execute_with_retry P.backoff (P.extractOp t file_path)).result with
      | .error msg => failStep s t msg [.fetchCall t.id, .extractCall t.id]
      | .ok data =>
        let usagePair := match data.usage with
          | some u => u
          | none => (0, 0)
        let status := data.read_status.getD "failed"
        ({ checkpoint := mark_processed s.checkpoint t.id status
         , tracker := s.tracker.update status usagePair.1 usagePair.2
         , events := s.events ++
             [.fetchCall t.id, .extractCall t.id, .trackerUpdate status,
              .markProcessedEv t.id status, .progressCallback]
         , sink := s.sink }, some data)
  else (s, none)

/-- Model of `save_result` in `process_files`: skip `None` results, otherwise append
the result to the output collection. -/
def save_result (s : ProcState) (res : Option ExtractedData) : ProcState :=
  match res with
  | some r =>
    { s with sink := s.sink ++ [r], events := s.events ++ [.sinkAppend r.document_id] }
  | none => s

/-- One task dispatched and its completion handled. -/
def runStep (P : Processor) (s : ProcState) (t : Task) : ProcState :=
  save_result (process_single_file P s t).1 (process_single_file P s t).2

/-- The full run of `process_files` over a task list (linearized), also
counting how many tasks were skipped because the checkpoint already listed
them as processed at dispatch time. -/
def runWithSkips (P : Processor) : ProcState → List Task → ℕ → ProcState × ℕ
  | s, [], k => (s, k)
  | s, t :: ts, k =>
    runWithSkips P (runStep P s t) ts
      (if should_process s.checkpoint t.id then k else k + 1)

theorem runStep_cases (P : Processor) (s : ProcState) (t : Task) :
    (should_process s.checkpoint t.id = false ∧ runStep P s t = s) ∨
    (should_process s.checkpoint t.id = true ∧
      ∃ st i o, (runStep P s t).tracker = s.tracker.update st i o) := by
  by_cases h : should_process s.checkpoint t.id = true
  · right
    refine ⟨h, ?_⟩
    cases hf : (execute_with_retry P.backoff (P.fetchOp t)).result with
    | error msg =>
      exact ⟨"failed", 0, 0, by simp [runStep, process_single_file, h, hf,
        failStep, save_result]⟩
    | ok op =>
      cases op with
      | none =>
        exact ⟨"failed", 0, 0, by simp [runStep, process_single_file, h, hf,
          failStep, save_result]⟩
      | some path =>
        cases he : (execute_with_retry P.backoff (P.extractOp t path)).result with
        | error msg =>
          exact ⟨"failed", 0, 0, by simp [runStep, process_single_file, h, hf, he,
            failStep, save_result]⟩
        | ok data =>
          refine ⟨data.read_status.getD "failed",
            (match data.usage with | some u => u | none => (0, 0)).1,
            (match data.usage with | some u => u | none => (0, 0)).2, ?_⟩
          simp [runStep, process_single_file, h, hf, he, save_result]
  · left
    rw [Bool.not_eq_true] at h
    refine ⟨h, ?_⟩
    simp [runStep, process_single_file, h, save_result]

theorem runWithSkips_spec (P : Processor) :
    ∀ (tasks : List Task) (s : ProcState) (k : ℕ),
      (runWithSkips P s tasks k).1.tracker.processed + (runWithSkips P s tasks k).2 =
        s.tracker.processed + k + tasks.length ∧
      sumThree (runWithSkips P s tasks k).1.tracker + s.tracker.processed =
        sumThree s.tracker + (runWithSkips P s tasks k).1.tracker.processed := by
  intro tasks
  induction tasks with
  | nil =>
    intro s k
    simp [runWithSkips]
  | cons t ts ih =>
    intro s k
    rcases runStep_cases P s t with ⟨hsp, heq⟩ | ⟨hsp, st, i, o, htr⟩
    · obtain ⟨h1a, h1b⟩ := ih s (k + 1)
      have hif : (if should_process s.checkpoint t.id = true then k else k + 1) = k + 1 := by
        rw [hsp]
        simp
      simp only [runWithSkips, hif, heq, List.length_cons]
      constructor
      · omega
      · omega
    · obtain ⟨h1a, h1b⟩ := ih (runStep P s t) k
      rw [htr, update_processed] at h1a
      rw [htr, update_sumThree, update_processed] at h1b
      simp only [runWithSkips, if_pos hsp, List.length_cons]
      constructor
      · omega
      · omega

/-- C1: for every task list run to normal completion, with the tracker
starting from a fresh `ProgressTracker`, the final counters satisfy
success + partial + failed = processed and processed + skipped = N, where a
task is counted as skipped exactly when `should_process` was false at its
dispatch (the checkpoint already listed it as processed). -/
theorem run_counters (P : Processor) (s0 : ProcState) (tasks : List Task)
    (n : ℕ) (hs : s0.tracker = mkProgressTracker n) :
    sumThree (runWithSkips P s0 tasks 0).1.tracker =
      (runWithSkips P s0 tasks 0).1.tracker.processed ∧
    (runWithSkips P s0 tasks 0).1.tracker.processed +
      (runWithSkips P s0 tasks 0).2 = tasks.length := by
  obtain ⟨ha, hb⟩ := runWithSkips_spec P tasks s0 0
  rw [hs] at ha hb
  have h0 : (mkProgressTracker n).processed = 0 := rfl
  have h1 : sumThree (mkProgressTracker n) = 0 := rfl
  constructor
  · omega
  · omega

theorem run_counters_witness :
    ((⟨⟨100, {"b"}, [], ⟨2, 0, 0, 0, 0, none, none⟩⟩,
        mkProgressTracker 2, [], []⟩ : ProcState)).tracker = mkProgressTracker 2 ∧
    (sumThree (runWithSkips
        ⟨⟨1, 60, 3⟩, fun _ _ => .ok (some "p"),
          fun t _ _ => .ok ⟨t.name, some "success", none, none⟩⟩
        ⟨⟨100, {"b"}, [], ⟨2, 0, 0, 0, 0, none, none⟩⟩, mkProgressTracker 2, [], []⟩
        [⟨"a", "A", "application/pdf"⟩, ⟨"b", "B", "application/pdf"⟩] 0).1.tracker =
      (runWithSkips
        ⟨⟨1, 60, 3⟩, fun _ _ => .ok (some "p"),
          fun t _ _ => .ok ⟨t.name, some "success", none, none⟩⟩
        ⟨⟨100, {"b"}, [], ⟨2, 0, 0, 0, 0, none, none⟩⟩, mkProgressTracker 2, [], []⟩
        [⟨"a", "A", "application/pdf"⟩, ⟨"b", "B", "application/pdf"⟩] 0).1.tracker.processed ∧
     (runWithSkips
        ⟨⟨1, 60, 3⟩, fun _ _ => .ok (some "p"),
          fun t _ _ => .ok ⟨t.name, some "success", none, none⟩⟩
        ⟨⟨100, {"b"}, [], ⟨2, 0, 0, 0, 0, none, none⟩⟩, mkProgressTracker 2, [], []⟩
        [⟨"a", "A", "application/pdf"⟩, ⟨"b", "B", "application/pdf"⟩] 0).1.tracker.processed +
      (runWithSkips
        ⟨⟨1, 60, 3⟩, fun _ _ => .ok (some "p"),
          fun t _ _ => .ok ⟨t.name, some "success", none, none⟩⟩
        ⟨⟨100, {"b"}, [], ⟨2, 0, 0, 0, 0, none, none⟩⟩, mkProgressTracker 2, [], []⟩
        [⟨"a", "A", "application/pdf"⟩, ⟨"b", "B", "application/pdf"⟩] 0).2 =
      ([⟨"a", "A", "application/pdf"⟩, ⟨"b", "B", "application/pdf"⟩] : List Task).length) :=
  ⟨rfl, run_counters _ _ _ 2 rfl⟩

/-- C2: `should_process taskId` is true iff `taskId` is not in the processed
set; and a task whose id is already in the processed set is skipped
entirely: `_process_single_file` returns the unchanged state with no result,
and the completion handling leaves the state (sink, checkpoint, tracker,
events) untouched. -/
theorem should_process_iff_and_skip (cm : CheckpointManager) (fid : String)
    (P : Processor) (s : ProcState) (t : Task)
    (hmem : t.id ∈ s.checkpoint.processed_files) :
    (should_process cm fid = true ↔ fid ∉ cm.processed_files) ∧
    process_single_file P s t = (s, none) ∧
    runStep P s t = s := by
  have h : should_process s.checkpoint t.id = false := by
    simp [should_process, hmem]
  refine ⟨by simp [should_process], ?_, ?_⟩
  · simp [process_single_file, h]
  · simp [runStep, process_single_file, h, save_result]

theorem should_process_iff_and_skip_witness :
    ("a" : String) ∈ ((⟨⟨100, {"a"}, [], ⟨1, 0, 0, 0, 0, none, none⟩⟩,
        mkProgressTracker 1, [], []⟩ : ProcState)).checkpoint.processed_files ∧
    ((should_process ⟨100, {"x"}, [], ⟨0, 0, 0, 0, 0, none, none⟩⟩ "y" = true ↔
        ("y" : String) ∉ ((⟨100, {"x"}, [], ⟨0, 0, 0, 0, 0, none, none⟩⟩ :
          CheckpointManager)).processed_files) ∧
     process_single_file
        ⟨⟨1, 60, 3⟩, fun _ _ => .ok (some "p"),
          fun t _ _ => .ok ⟨t.name, some "success", none, none⟩⟩
        ⟨⟨100, {"a"}, [], ⟨1, 0, 0, 0, 0, none, none⟩⟩, mkProgressTracker 1, [], []⟩
        ⟨"a", "A", "application/pdf"⟩ =
        (⟨⟨100, {"a"}, [], ⟨1, 0, 0, 0, 0, none, none⟩⟩,
          mkProgressTracker 1, [], []⟩, none) ∧
     runStep
        ⟨⟨1, 60, 3⟩, fun _ _ => .ok (some "p"),
          fun t _ _ => .ok ⟨t.name, some "success", none, none⟩⟩
        ⟨⟨100, {"a"}, [], ⟨1, 0, 0, 0, 0, none, none⟩⟩, mkProgressTracker 1, [], []⟩
        ⟨"a", "A", "application/pdf"⟩ =
        ⟨⟨100, {"a"}, [], ⟨1, 0, 0, 0, 0, none, none⟩⟩, mkProgressTracker 1, [], []⟩) :=
  ⟨by decide, should_process_iff_and_skip _ _ _ _ _ (by decide)⟩

/-! ## Faithful locking model of the checkpoint mutators

CheckpointManager guards every mutating method with a single non-reentrant
`threading.Lock` (`self.lock = threading.Lock()`; contrast ProgressTracker,
which deliberately uses a reentrant RLock "to avoid deadlock").  A thread
that already holds that lock and acquires it again blocks forever.  The
wrappers below make the lock explicit: `lock_held` says whether the calling
thread already holds the lock, and a `none` outcome means the call never
returns. -/

/-- Entry to `CheckpointManager.mark_processed`: `with self.lock:` around the
counter updates.  Blocks forever (`none`) when the calling thread already
holds the non-reentrant lock; otherwise completes with the updated state. -/
def mark_processed_locked (lock_held : Bool) (cm : CheckpointManager)
    (file_id status : String) : Option CheckpointManager :=
  if lock_held then none
  else some (mark_processed cm file_id status)

/-- Entry to `CheckpointManager.mark_failed`: `with self.lock:` (the lock is
now held), record the error message, then call `self.mark_processed`, which
re-acquires the same non-reentrant lock. -/
def mark_failed_locked (lock_held : Bool) (cm : CheckpointManager)
    (file_id error_message : String) : Option CheckpointManager :=
  if lock_held then none
  else
    mark_processed_locked true
      { cm with failed_files := dictInsert cm.failed_files file_id error_message }
      file_id "failed"

/-- Every top-level `mark_failed` call deadlocks: the nested `mark_processed`
blocks on the lock the caller still holds. -/
theorem mark_failed_locked_none (cm : CheckpointManager)
    (file_id error_message : String) :
    mark_failed_locked false cm file_id error_message = none := rfl

/-- Outcome of one worker thread processing one task: either it completes
with a result, or it blocks forever; in the latter case the state records
the effects performed before the thread hung. -/
inductive WorkerOutcome where
  | completed (s : ProcState) (result : Option ExtractedData)
  | hung (s : ProcState)

/-- The `except Exception` branch of `_process_single_file` under the
faithful lock model: `progress_tracker.update('failed')` completes (the
tracker lock is reentrant), then `mark_failed` writes the error message into
`failed_files` and deadlocks re-acquiring the checkpoint lock in its nested
`mark_processed`; the stats counters are never bumped, the progress callback
never runs, and no result is returned. -/
def failStepLocked (s : ProcState) (t : Task) (msg : String)
    (pre : List Event) : WorkerOutcome :=
  .hung ⟨{ s.checkpoint with
             failed_files := dictInsert s.checkpoint.failed_files t.id msg },
         s.tracker.update "failed" 0 0,
         s.events ++ pre ++ [.trackerUpdate "failed"],
         s.sink⟩

/-- Model of `ParallelProcessor._process_single_file` under the faithful lock
model: identical to `process_single_file` except that the exception path
hangs inside `mark_failed` instead of completing (the success path calls
`mark_processed` with the lock free, which completes). -/
def process_single_file_locked (P : Processor) (s : ProcState) (t : Task) :
    WorkerOutcome :=
  if should_process s.checkpoint t.id then
    match (execute_with_retry P.backoff (P.fetchOp t)).result with
    | .error msg => failStepLocked s t msg [.fetchCall t.id]
    | .ok none => failStepLocked s t "Download failed" [.fetchCall t.id]
    | .ok (some file_path) =>
      match (execute_with_retry P.backoff (P.extractOp t file_path)).result with
      | .error msg => failStepLocked s t msg [.fetchCall t.id, .extractCall t.id]
      | .ok data =>
        let usagePair := match data.usage with
          | some u => u
          | none => (0, 0)
        let status := data.read_status.getD "failed"
        .completed
          ⟨mark_processed s.checkpoint t.id status,
           s.tracker.update status usagePair.1 usagePair.2,
           s.events ++
             [.fetchCall t.id, .extractCall t.id, .trackerUpdate status,
              .markProcessedEv t.id status, .progressCallback],
           s.sink⟩ (some data)
  else .completed s none

/-- Completion handling of `process_files` under the lock model: a hung
worker never resolves its future, so `save_result` runs only for completed
tasks. -/
def runStepLocked (P : Processor) (s : ProcState) (t : Task) : WorkerOutcome :=
  match process_single_file_locked P s t with
  | .completed s2 res => .completed (save_result s2 res) res
  | .hung s2 => .hung s2

/-- C6: the claim describes the intended behaviour but the code has a bug —
for a non-skipped task whose fetch raises on every attempt, the worker
enters `CheckpointManager.mark_failed`, which re-acquires the already-held
non-reentrant checkpoint lock inside its nested `mark_processed` and blocks
forever: no synthetic failed result is ever produced and the progress
callback never fires (the note the unreachable continuation would build is
"Error: <message>", not "fetch failed: <message>").  The extraction client
is indeed never invoked: the hung state's event delta contains no extract
call. -/
theorem fetch_fail_deadlock (P : Processor) (s : ProcState) (t : Task)
    (m : ℕ → String) (h1 : 1 ≤ P.backoff.max_attempts)
    (hns : should_process s.checkpoint t.id = true)
    (hop : ∀ i, P.fetchOp t i = .error (m i)) :
    mark_failed_locked false s.checkpoint t.id
      (m (P.backoff.max_attempts - 1)) = none ∧
    process_single_file_locked P s t =
      .hung ⟨{ s.checkpoint with
                 failed_files := dictInsert s.checkpoint.failed_files t.id
                   (m (P.backoff.max_attempts - 1)) },
             s.tracker.update "failed" 0 0,
             s.events ++ [.fetchCall t.id, .trackerUpdate "failed"],
             s.sink⟩ ∧
    Event.extractCall t.id ∉
      ([.fetchCall t.id, .trackerUpdate "failed"] : List Event) := by
  have hres : (execute_with_retry P.backoff (P.fetchOp t)).result =
      .error (m (P.backoff.max_attempts - 1)) := by
    have h := retry_loop_allFail P.backoff (P.fetchOp t) m hop
      P.backoff.max_attempts 0 "" (by omega) h1
    rw [execute_with_retry, h]
    simp
  refine ⟨rfl, ?_, by simp⟩
  simp [process_single_file_locked, hns, hres, failStepLocked, List.append_assoc]

theorem fetch_fail_deadlock_witness :
    1 ≤ ((⟨1, 60, 2⟩ : ExponentialBackoff)).max_attempts ∧
    should_process ⟨100, ∅, [], ⟨1, 0, 0, 0, 0, none, none⟩⟩ "a" = true ∧
    (mark_failed_locked false ⟨100, ∅, [], ⟨1, 0, 0, 0, 0, none, none⟩⟩
        "a" "net down" = none ∧
     process_single_file_locked
        ⟨⟨1, 60, 2⟩, fun _ _ => .error "net down",
          fun t _ _ => .ok ⟨t.name, some "success", none, none⟩⟩
        ⟨⟨100, ∅, [], ⟨1, 0, 0, 0, 0, none, none⟩⟩, mkProgressTracker 1, [], []⟩
        ⟨"a", "A", "application/pdf"⟩ =
      .hung ⟨⟨100, ∅, [("a", "net down")], ⟨1, 0, 0, 0, 0, none, none⟩⟩,
             ⟨1, 1, 0, 0, 1, 0, 0⟩,
             [.fetchCall "a", .trackerUpdate "failed"],
             []⟩ ∧
     Event.extractCall "a" ∉
       ([.fetchCall "a", .trackerUpdate "failed"] : List Event)) := by
  have h := fetch_fail_deadlock
    ⟨⟨1, 60, 2⟩, fun _ _ => .error "net down",
      fun t _ _ => .ok ⟨t.name, some "success", none, none⟩⟩
    ⟨⟨100, ∅, [], ⟨1, 0, 0, 0, 0, none, none⟩⟩, mkProgressTracker 1, [], []⟩
    ⟨"a", "A", "application/pdf"⟩ (fun _ => "net down") (by decide) (by decide)
    (fun _ => rfl)
  exact ⟨by decide, by decide, h⟩

/-- C7 counterexample: for a concrete successful task the actual completion
trace is fetch, extract, tracker update, markProcessed, progress callback,
sink append — a permutation of, but not equal to, the claimed sequence
(markProcessed, then tracker update, then sink, then callback). -/
theorem completion_order_claim_false :
    (runStep
        ⟨⟨1, 60, 1⟩, fun _ _ => .ok (some "p"),
          fun _ _ _ => .ok ⟨"DOC", some "success", none, none⟩⟩
        ⟨⟨100, ∅, [], ⟨1, 0, 0, 0, 0, none, none⟩⟩, mkProgressTracker 1, [], []⟩
        ⟨"a", "A", "application/pdf"⟩).events =
      [.fetchCall "a", .extractCall "a", .trackerUpdate "success",
       .markProcessedEv "a" "success", .progressCallback, .sinkAppend "DOC"] ∧
    ([.fetchCall "a", .extractCall "a", .trackerUpdate "success",
       .markProcessedEv "a" "success", .progressCallback, .sinkAppend "DOC"] :
        List Event).Perm
      [.fetchCall "a", .extractCall "a", .markProcessedEv "a" "success",
       .trackerUpdate "success", .sinkAppend "DOC", .progressCallback] ∧
    ([.fetchCall "a", .extractCall "a", .trackerUpdate "success",
       .markProcessedEv "a" "success", .progressCallback, .sinkAppend "DOC"] :
        List Event) ≠
      [.fetchCall "a", .extractCall "a", .markProcessedEv "a" "success",
       .trackerUpdate "success", .sinkAppend "DOC", .progressCallback] := by
  refine ⟨by decide, by decide, by decide⟩

/-- C7 (amended): for every non-skipped task whose fetch and extraction both
return normally, fetch precedes extraction, both precede the checkpoint and
progress updates, and the completion sequence is ProgressTracker.update,
then CheckpointStore.markProcessed, then the optional progress callback,
then handing the result to the ResultSink.  (Tasks whose fetch or extraction
raises never reach their completion steps: the worker deadlocks inside
`mark_failed` — the C6 bug — so the claimed ordering is only realizable on
the success path.) -/
theorem task_event_order_success (P : Processor) (s : ProcState) (t : Task)
    (path : String) (data : ExtractedData)
    (hns : should_process s.checkpoint t.id = true)
    (hf : (execute_with_retry P.backoff (P.fetchOp t)).result = .ok (some path))
    (he : (execute_with_retry P.backoff (P.extractOp t path)).result = .ok data) :
    runStepLocked P s t =
      .completed
        ⟨mark_processed s.checkpoint t.id (data.read_status.getD "failed"),
         s.tracker.update (data.read_status.getD "failed")
           (match data.usage with | some u => u | none => (0, 0)).1
           (match data.usage with | some u => u | none => (0, 0)).2,
         s.events ++ [.fetchCall t.id, .extractCall t.id,
           .trackerUpdate (data.read_status.getD "failed"),
           .markProcessedEv t.id (data.read_status.getD "failed"),
           .progressCallback, .sinkAppend data.document_id],
         s.sink ++ [data]⟩
        (some data) := by
  simp [runStepLocked, process_single_file_locked, hns, hf, he, save_result,
    List.append_assoc]

theorem task_event_order_success_witness :
    should_process ⟨100, ∅, [], ⟨1, 0, 0, 0, 0, none, none⟩⟩ "a" = true ∧
    runStepLocked
        ⟨⟨1, 60, 1⟩, fun _ _ => .ok (some "p"),
          fun _ _ _ => .ok ⟨"DOC", some "success", none, none⟩⟩
        ⟨⟨100, ∅, [], ⟨1, 0, 0, 0, 0, none, none⟩⟩, mkProgressTracker 1, [], []⟩
        ⟨"a", "A", "application/pdf"⟩ =
      .completed
        ⟨mark_processed ⟨100, ∅, [], ⟨1, 0, 0, 0, 0, none, none⟩⟩ "a" "success",
         (mkProgressTracker 1).update "success" 0 0,
         [.fetchCall "a", .extractCall "a", .trackerUpdate "success",
          .markProcessedEv "a" "success", .progressCallback, .sinkAppend "DOC"],
         [⟨"DOC", some "success", none, none⟩]⟩
        (some ⟨"DOC", some "success", none, none⟩) := by
  have h := task_event_order_success
    ⟨⟨1, 60, 1⟩, fun _ _ => .ok (some "p"),
      fun _ _ _ => .ok ⟨"DOC", some "success", none, none⟩⟩
    ⟨⟨100, ∅, [], ⟨1, 0, 0, 0, 0, none, none⟩⟩, mkProgressTracker 1, [], []⟩
    ⟨"a", "A", "application/pdf"⟩ "p" ⟨"DOC", some "success", none, none⟩
    (by decide) rfl rfl
  exact ⟨by decide, h⟩

/-! ## Worker-count settings (settings.py, parallel_processor.py) -/

/-- Constant `Settings.MAX_WORKERS`. -/
def MAX_WORKERS : ℤ := 10

/-- Constant `Settings.MIN_WORKERS`. -/
def MIN_WORKERS : ℤ := 1

/-- Constant `Settings.MAX_WORKERS_LIMIT`. -/
def MAX_WORKERS_LIMIT : ℤ := 50

/-- Model of `ParallelProcessor.__init__`:
`self.max_workers = max_workers or Settings.MAX_WORKERS` — Python `or`
falls back to the default exactly when the supplied value is falsy
(`None` or `0`); no other transformation is applied. -/
def effective_max_workers (max_workers : Option ℤ) : ℤ :=
  match max_workers with
  | none => MAX_WORKERS
  | some v => if v = 0 then MAX_WORKERS else v

/-- C9 counterexample: supplying 100 workers yields an effective pool size of
100, above the claimed hard ceiling of 50 — the executor applies no clamp. -/
theorem workers_ceiling_claim_false :
    effective_max_workers (some 100) = 100 ∧
    ¬ ((100 : ℤ) ≤ MAX_WORKERS_LIMIT) := by
  refine ⟨by decide, by decide⟩

/-- C9 (amended): the worker-pool size defaults to `MAX_WORKERS = 10` when no
value (or the falsy value 0) is supplied; any other supplied value is used
unchanged — the executor applies neither the floor of 1 nor the ceiling of
50. -/
theorem workers_default_and_passthrough (v : ℤ) (hv : v ≠ 0) :
    effective_max_workers none = 10 ∧
    effective_max_workers (some 0) = 10 ∧
    effective_max_workers (some v) = v := by
  refine ⟨rfl, by decide, ?_⟩
  simp [effective_max_workers, hv]

theorem workers_default_and_passthrough_witness :
    ((7 : ℤ) ≠ 0) ∧
    (effective_max_workers none = 10 ∧
     effective_max_workers (some 0) = 10 ∧
     effective_max_workers (some 7) = 7) :=
  ⟨by decide, workers_default_and_passthrough 7 (by decide)⟩

end OmmSai
